import Mathlib

/-!
Verification of the skills-server tool-discovery proxy.

The development shallowly embeds the two server variants found in the
repository:

* `Flat` — the flattened-bridge server (`src/index.ts`): local skills plus
  the whole lazy-mcp hierarchy flattened into individually named tools.
* `Hier` — the hierarchical-navigation server (the unnamed enhanced
  variant): local skills (static or executable) plus exactly two fixed
  navigation tools proxying to the bridge.

File-system reads, the wall clock, the environment and the bridge process
are modelled as explicit inputs; the module-level mutable caches become
explicit state records threaded through each operation.
-/

namespace SkillsServer

/-! ## JavaScript string primitives

The source uses `String.prototype.includes`, `String.prototype.split` with a
single-character separator, and `Array.prototype.join`.  They are modelled
by structural recursion over the character list so that concrete instances
evaluate inside the kernel. -/

/-- One step of substring search: does `pat` occur in the character list? -/
def hasSubList (pat : List Char) : List Char → Bool
  | [] => pat.isEmpty
  | c :: rest => pat.isPrefixOf (c :: rest) || hasSubList pat rest

/-- JavaScript `s.includes(pat)`. -/
def strIncludes (s pat : String) : Bool :=
  hasSubList pat.data s.data

/-- Split a character list at every occurrence of `sep`; never returns `[]`,
and `splitAux sep [] = [[]]`, matching JavaScript `"".split(sep) = [""]`. -/
def splitAux (sep : Char) : List Char → List (List Char)
  | [] => [[]]
  | c :: rest =>
    match splitAux sep rest with
    | [] => [[c]]
    | g :: gs => if c = sep then [] :: g :: gs else (c :: g) :: gs

/-- JavaScript `s.split(sep)` for a one-character separator. -/
def jsSplit (s : String) (sep : Char) : List String :=
  (splitAux sep s.data).map String.mk

/-- JavaScript `xs.join(sep)`. -/
def joinWith (sep : String) : List String → String
  | [] => ""
  | [s] => s
  | s :: rest => s ++ sep ++ joinWith sep rest

/-- JavaScript `x || d` for an optional string: `undefined` and the empty
string (both falsy) yield the default. -/
def jsOr (o : Option String) (d : String) : String :=
  match o with
  | some s => if s = "" then d else s
  | none => d

/-- JavaScript truthiness of an optional string field (`!x` is true exactly
for a missing or empty value). -/
def truthy (o : Option String) : Bool :=
  match o with
  | some s => s ≠ ""
  | none => false

/-! ## Environment and feature flag -/

/-- The environment variables the spec lists as the configuration surface.
`cacheDurationVar` and `lazyMcpCacheDurationVar` are carried so that claims
about TTL configurability can be stated; `lazyMcpCommandExists` models
`fs.existsSync(LAZY_MCP_COMMAND)`. -/
structure Env where
  lazyMcpEnabledVar : Option String
  lazyMcpCommandExists : Bool
  cacheDurationVar : Option String
  lazyMcpCacheDurationVar : Option String
deriving Repr, DecidableEq

/-- Source `isLazyMCPEnabled`: the explicit override wins when set (the
string comparison with "true"), otherwise command existence decides. -/
def isLazyMCPEnabled (env : Env) : Bool :=
  match env.lazyMcpEnabledVar with
  | some v => v == "true"
  | none => env.lazyMcpCommandExists

/-- Source `getLazyMCPEnabled`: re-evaluates the predicate on every call. -/
def getLazyMCPEnabled (env : Env) : Bool :=
  isLazyMCPEnabled env

/-! ## JSON values and schemas -/

/-- Structured data as passed over the protocol (enough of JSON for the
schemas and arguments the server builds). -/
inductive JsonVal where
  | str : String → JsonVal
  | boolVal : Bool → JsonVal
  | obj : List (String × JsonVal) → JsonVal
  | arr : List JsonVal → JsonVal

/-- Bridge-side definition of one leaf tool, as found in a
`get_tools_in_category` response. -/
structure ToolDef where
  description : Option String
  inputSchema : Option JsonVal

/-- Source `inferInputSchema`: an explicit schema is used verbatim,
otherwise the generic single-`input`-field fallback is synthesized. -/
def inferInputSchema (toolDef : ToolDef) : JsonVal :=
  match toolDef.inputSchema with
  | some s => s
  | none =>
    .obj [("type", .str "object"),
          ("properties", .obj [("input", .obj
            [("type", .str "string"),
             ("description", .str "Input for this tool")])]),
          ("required", .arr [])]

/-- One flattened bridge tool (source interface `LazyMCPTool`; the constant
`source: 'lazy-mcp'` discriminator is kept as a field). -/
structure LazyMCPTool where
  name : String
  tool_path : String
  description : String
  inputSchema : JsonVal
  category : String
  source : String

/-- Source `createTraditionalTool`: split the hierarchical path on dots,
prefix the leaf with its top-level category when nested more than one
level. -/
def createTraditionalTool (toolPath : String) (toolDef : ToolDef) : LazyMCPTool :=
  let parts := jsSplit toolPath '.'
  let category := parts.headD ""
  let toolName := parts.getLastD ""
  let safeName := if parts.length > 2 then category ++ "_" ++ toolName else toolName
  { name := safeName
    tool_path := toolPath
    description := jsOr toolDef.description "No description available"
    inputSchema := inferInputSchema toolDef
    category := category
    source := "lazy-mcp" }

/-! ## Bridge hierarchy and connection state -/

/-- The bridge provider's category tree: leaf tools and named child
categories at each node (what successive `get_tools_in_category` calls
reveal). -/
inductive Hierarchy where
  | node (tools : List (String × ToolDef)) (children : List (String × Hierarchy))

/-- Path extension as written in the source:
`path ? path + "." + name : name` (the empty root path is falsy). -/
def extendPath (path name : String) : String :=
  if path = "" then name else path ++ "." ++ name

/-- The module-level bridge globals: `lazyMCPClient` (null or a connected
client), `lazyMCPToolsCache` and `lastLazyMCPCacheTime`. -/
structure BridgeState where
  client : Option Unit
  toolsCache : List LazyMCPTool
  lastCacheTime : Nat

/-- Source constant `LAZY_MCP_CACHE_DURATION` (hard-coded, not read from the
environment). -/
def LAZY_MCP_CACHE_DURATION : Nat := 300000

/-- Source `ensureLazyMCPConnection`.  When the live flag is false the
client is closed and nulled and the tools cache cleared; otherwise a missing
client is connected (`connectOk` tells whether `connect` would succeed
now). -/
def ensureLazyMCPConnection (env : Env) (connectOk : Bool) (st : BridgeState) :
    Bool × BridgeState :=
  if !(getLazyMCPEnabled env) then
    (false, { st with client := none, toolsCache := [] })
  else
    match st.client with
    | none =>
      if connectOk then (true, { st with client := some () })
      else (false, { st with client := none })
    | some _ => (true, st)

/-! ## Skill repository on disk -/

/-- One immediate subdirectory of the skills root, together with what the
file system and the front-matter parser would report for it.  `readOk`
models `readFileSync`/`matter` not throwing; the `fm…` fields are the
descriptor's front matter (absent key = `none`). -/
structure SkillDirEntry where
  dirName : String
  hasSkillMd : Bool
  readOk : Bool
  fmName : Option String
  fmDescription : Option String
  fmType : Option String
  fmAllowedTools : Option (List String)
  fmExecutionLogic : Option String
  fmParameters : Option (List (String × String))
  fmSkillId : Option String
  fmVersion : Option String
  body : String

/-- The skills root directory: its path, whether it exists, whether
`mkdirSync` would succeed if it does not, and its subdirectories. -/
structure Disk where
  skillsDir : String
  rootExists : Bool
  mkdirOk : Bool
  entries : List SkillDirEntry

/-- Source constant `CACHE_DURATION` (hard-coded, not read from the
environment). -/
def CACHE_DURATION : Nat := 5000

/-- One tool descriptor of a `tools/list` response. -/
structure ToolDescriptor where
  name : String
  description : String
  inputSchema : JsonVal

/-- The literal catalog schema given to every skill in both variants: one
optional string field named `query`. -/
def querySchema : JsonVal :=
  .obj [("type", .str "object"),
        ("properties", .obj [("query", .obj
          [("type", .str "string"),
           ("description", .str "Optional query or context for using this skill")])])]

/-- Outcome of a `CallToolRequestSchema` request: a returned text body, a
result proxied through from the bridge, or a thrown error message. -/
inductive CallOutcome where
  | success (text : String)
  | proxied (resp : String)
  | failure (message : String)
deriving Repr, DecidableEq

/-- The literal `Tool '<name>' not found` error message (both variants). -/
def notFoundMsg (name : String) : String :=
  "Tool '" ++ name ++ "' not found"

/-! ## Flat: the flattened-bridge server (`src/index.ts`) -/

namespace Flat

/-- Source interface `Skill` of the flattened variant. -/
structure Skill where
  name : String
  description : String
  content : String
  path : String
deriving Repr, DecidableEq

/-- The per-directory body of the `loadSkills` loop: the traversal guard on
the directory name, the `SKILL.md` existence check, the read/parse guarded
by try/catch, and the required-front-matter validation. -/
def parseSkillEntry (skillsDir : String) (e : SkillDirEntry) : Option Skill :=
  if strIncludes e.dirName ".." || strIncludes e.dirName "/" || strIncludes e.dirName "\\" then
    none
  else if !e.hasSkillMd then none
  else if !e.readOk then none
  else if !(truthy e.fmName && truthy e.fmDescription) then none
  else some
    { name := e.fmName.getD ""
      description := e.fmDescription.getD ""
      content := e.body
      path := skillsDir ++ "/" ++ e.dirName ++ "/SKILL.md" }

/-- The full disk scan of `loadSkills` (everything between the directory
check and the cache update): one skill per valid subdirectory, in directory
order, invalid ones skipped. -/
def scanSkills (disk : Disk) : List Skill :=
  disk.entries.filterMap (parseSkillEntry disk.skillsDir)

/-- The module-level globals `skillsCache` and `lastCacheTime`. -/
structure SkillsCacheState where
  skillsCache : List Skill
  lastCacheTime : Nat
deriving Repr, DecidableEq

/-- Source `loadSkills`: serve the cache while it is non-empty and fresh;
otherwise re-scan.  A failed `mkdirSync` on a missing root returns `[]`
without updating the cache (the early `return skills`). -/
def loadSkills (st : SkillsCacheState) (disk : Disk) (now : Nat) :
    List Skill × SkillsCacheState :=
  if st.skillsCache.length > 0 ∧ now - st.lastCacheTime < CACHE_DURATION then
    (st.skillsCache, st)
  else if !disk.rootExists && !disk.mkdirOk then
    ([], st)
  else
    let skills := scanSkills disk
    (skills, { skillsCache := skills, lastCacheTime := now })

mutual

/-- Source `scanLazyMCPHierarchy` of the flattened variant: leaf tools at
the current path become traditional tools, and every child category is
recursed into with the parent-prefixed path (`fullChildPath`), results
appended. -/
def scanLazyMCPHierarchy (path : String) : Hierarchy → List LazyMCPTool
  | .node tools children =>
    tools.map (fun p => createTraditionalTool (extendPath path p.1) p.2)
      ++ scanChildren path children

/-- The `for (const childPath in responseData.children)` loop of
`scanLazyMCPHierarchy`. -/
def scanChildren (path : String) : List (String × Hierarchy) → List LazyMCPTool
  | [] => []
  | (cn, ch) :: rest =>
    scanLazyMCPHierarchy (extendPath path cn) ch ++ scanChildren path rest

end

/-- Source `loadLazyMCPTools`: serve the bridge cache while it is non-empty
and fresh; otherwise ensure the connection (returning `[]` when it cannot be
established) and re-scan the whole hierarchy from the root. -/
def loadLazyMCPTools (env : Env) (connectOk : Bool) (hier : Hierarchy)
    (now : Nat) (st : BridgeState) : List LazyMCPTool × BridgeState :=
  if st.toolsCache.length > 0 ∧ now - st.lastCacheTime < LAZY_MCP_CACHE_DURATION then
    (st.toolsCache, st)
  else
    match ensureLazyMCPConnection env connectOk st with
    | (false, st') => ([], st')
    | (true, st') =>
      let tools := scanLazyMCPHierarchy "" hier
      (tools, { st' with toolsCache := tools, lastCacheTime := now })

/-- The skill part of the `ListToolsRequestSchema` handler's map. -/
def skillDescriptor (s : Skill) : ToolDescriptor :=
  { name := s.name, description := s.description, inputSchema := querySchema }

/-- The lazy-mcp part of the `ListToolsRequestSchema` handler's map: the
description is tagged with the owning category. -/
def lazyDescriptor (t : LazyMCPTool) : ToolDescriptor :=
  { name := t.name
    description := "[" ++ t.category ++ "] " ++ t.description
    inputSchema := t.inputSchema }

/-- The two module-level cache states together. -/
structure ServerState where
  skills : SkillsCacheState
  bridge : BridgeState

/-- Source `ListToolsRequestSchema` handler: load skills, evaluate the live
flag once, load bridge tools only when enabled, and return skills first with
lazy-mcp descriptors appended only when enabled. -/
def listToolsHandler (env : Env) (disk : Disk) (connectOk : Bool)
    (hier : Hierarchy) (now : Nat) (st : ServerState) :
    List ToolDescriptor × ServerState :=
  let (skills, skSt) := loadSkills st.skills disk now
  let lazyMcpEnabled := getLazyMCPEnabled env
  let (lazyTools, brSt) :=
    if lazyMcpEnabled then loadLazyMCPTools env connectOk hier now st.bridge
    else ([], st.bridge)
  let allTools := skills.map skillDescriptor
  let allTools :=
    if lazyMcpEnabled then allTools ++ lazyTools.map lazyDescriptor else allTools
  (allTools, { skills := skSt, bridge := brSt })

/-- The literal `Failed to execute tool '<name>': <error>` error message. -/
def execFailMsg (name err : String) : String :=
  "Failed to execute tool '" ++ name ++ "': " ++ err

/-- The body of the handler's lazy-mcp branch once a flattened tool matched:
call `execute_tool` on the current client with the stored `tool_path`,
passing the caller's arguments through unchanged; a bridge-side failure (or
the TypeError of a null client) becomes the execution-failure error naming
the requested tool. -/
def proxyOutcome (client : Option Unit)
    (bridgeExec : String → JsonVal → Except String String)
    (name : String) (args : Option JsonVal) (tool : LazyMCPTool) : CallOutcome :=
  match client with
  | none => .failure (execFailMsg name "TypeError")
  | some _ =>
    match bridgeExec tool.tool_path (args.getD (.obj [])) with
    | .ok resp => .proxied resp
    | .error e => .failure (execFailMsg name e)

/-- Source `CallToolRequestSchema` handler: resolve among skills first (via
the caching loader), then — only when the live flag is true — among the
flattened bridge tools, proxying by stored `tool_path`; otherwise throw the
not-found error.  `bridgeExec` is the bridge's `execute_tool` primitive
(`Except` error = a bridge-side failure); a null client at the proxy point
is the caught TypeError of `(lazyMCPClient as any).callTool`. -/
def callToolHandler (env : Env) (disk : Disk) (connectOk : Bool)
    (hier : Hierarchy) (bridgeExec : String → JsonVal → Except String String)
    (now : Nat) (st : ServerState) (name : String) (args : Option JsonVal) :
    CallOutcome × ServerState :=
  let (skills, skSt) := loadSkills st.skills disk now
  match skills.find? (fun s => s.name == name) with
  | some skill => (.success skill.content, { skills := skSt, bridge := st.bridge })
  | none =>
    if getLazyMCPEnabled env then
      let (lazyTools, brSt) := loadLazyMCPTools env connectOk hier now st.bridge
      match lazyTools.find? (fun t => t.name == name) with
      | some tool =>
        (proxyOutcome brSt.client bridgeExec name args tool,
         { skills := skSt, bridge := brSt })
      | none => (.failure (notFoundMsg name), { skills := skSt, bridge := brSt })
    else
      (.failure (notFoundMsg name), { skills := skSt, bridge := st.bridge })

end Flat

/-! ## Hier: the hierarchical-navigation server (the enhanced variant) -/

namespace Hier

/-- Source interface `Skill` of the enhanced variant, with the executable
extensions (`type`, `allowed_tools`, `execution_logic`, `parameters`,
`skill_id`, `version`). -/
structure Skill where
  name : String
  description : String
  content : String
  path : String
  type : String
  allowed_tools : List String
  execution_logic : String
  parameters : List (String × String)
  skill_id : String
  version : String

/-- The per-directory body of the enhanced `loadSkills` loop; the extra
fields default with JavaScript `||` semantics (`type`, `execution_logic`,
`skill_id`, `version`) or `|| []` / `|| {}` (`allowed_tools`,
`parameters`). -/
def parseSkillEntry (skillsDir : String) (e : SkillDirEntry) : Option Skill :=
  if strIncludes e.dirName ".." || strIncludes e.dirName "/" || strIncludes e.dirName "\\" then
    none
  else if !e.hasSkillMd then none
  else if !e.readOk then none
  else if !(truthy e.fmName && truthy e.fmDescription) then none
  else some
    { name := e.fmName.getD ""
      description := e.fmDescription.getD ""
      content := e.body
      path := skillsDir ++ "/" ++ e.dirName ++ "/SKILL.md"
      type := jsOr e.fmType "static"
      allowed_tools := e.fmAllowedTools.getD []
      execution_logic := jsOr e.fmExecutionLogic "static"
      parameters := e.fmParameters.getD []
      skill_id := jsOr e.fmSkillId (e.fmName.getD "")
      version := jsOr e.fmVersion "latest" }

/-- The full disk scan of the enhanced `loadSkills`. -/
def scanSkills (disk : Disk) : List Skill :=
  disk.entries.filterMap (parseSkillEntry disk.skillsDir)

/-- The enhanced variant's module-level `skillsCache` and `lastCacheTime`. -/
structure SkillsCacheState where
  skillsCache : List Skill
  lastCacheTime : Nat

/-- The enhanced `loadSkills` (same caching scheme as the flattened one). -/
def loadSkills (st : SkillsCacheState) (disk : Disk) (now : Nat) :
    List Skill × SkillsCacheState :=
  if st.skillsCache.length > 0 ∧ now - st.lastCacheTime < CACHE_DURATION then
    (st.skillsCache, st)
  else if !disk.rootExists && !disk.mkdirOk then
    ([], st)
  else
    let skills := scanSkills disk
    (skills, { skillsCache := skills, lastCacheTime := now })

/-- The fixed closing block chosen by the `switch (skill.execution_logic)`
of `generateDynamicInstructions`. -/
def closingSection (logic : String) : String :=
  match logic with
  | "conditional" =>
    "## Conditional Logic\n"
      ++ "- Analyze the input and context\n"
      ++ "- Make decisions based on available information\n"
      ++ "- Adapt your approach based on results\n"
  | "sequential" =>
    "## Sequential Execution\n"
      ++ "- Follow steps in logical order\n"
      ++ "- Use output from previous steps as input to next\n"
      ++ "- Validate each step before proceeding\n"
  | "parallel" =>
    "## Parallel Execution\n"
      ++ "- Execute multiple operations simultaneously\n"
      ++ "- Coordinate results from parallel operations\n"
      ++ "- Handle dependencies between operations\n"
  | _ =>
    "## Standard Execution\n"
      ++ "- Follow the provided instructions systematically\n"
      ++ "- Use available tools as needed\n"
      ++ "- Provide comprehensive solutions\n"

/-- The fixed tool-orchestration block appended when `allowed_tools` is
non-empty. -/
def toolStrategyBlock : String :=
  "## Tool Usage Strategy\n"
    ++ "- Analyze the task and select appropriate tools\n"
    ++ "- Use tools in sequence to accomplish the task\n"
    ++ "- Combine tool outputs for comprehensive solutions\n"
    ++ "- Handle errors gracefully and provide alternatives\n\n"

/-- Source `generateDynamicInstructions`: the synthesized body for an
executable skill.  `queryArg` is `params.query` (`params.query || ''` makes
a missing or empty query equivalent). -/
def generateDynamicInstructions (skill : Skill) (queryArg : Option String) : String :=
  let query := match queryArg with | some q => q | none => ""
  let availableTools := skill.allowed_tools
  let instructions := "# " ++ skill.name ++ " - Dynamic Execution\n\n"
  let instructions := instructions ++ skill.description ++ "\n\n"
  let instructions :=
    if query ≠ "" then instructions ++ "## Task Context\n" ++ query ++ "\n\n"
    else instructions
  let instructions :=
    if availableTools.length > 0 then
      instructions
        ++ "## Available Tools\nYou have access to these tools: "
        ++ joinWith ", " availableTools ++ "\n\n"
        ++ toolStrategyBlock
    else instructions
  let instructions := instructions ++ "## Execution Instructions\n" ++ skill.content ++ "\n\n"
  instructions ++ closingSection skill.execution_logic

/-- The two fixed navigation descriptors of `getLazyMCPNavigationTools`
(returned verbatim whenever the bridge connection is available). -/
def navToolDescriptors : List ToolDescriptor :=
  [{ name := "lazy_mcp_get_tools_in_category"
     description := "Browse the lazy-mcp tool hierarchy progressively. You have 166 MCP tools across 15 categories available through progressive disclosure. Use this to explore available tools by category.\n\nCall with empty path \"\" to see root categories (brave-search, desktop-commander, filesystem, github, playwright, etc.).\n\nReturns children categories and tools at the specified path."
     inputSchema := .obj
       [("type", .str "object"),
        ("properties", .obj [("path", .obj
          [("type", .str "string"),
           ("description", .str "Category path using dot notation (e.g., 'brave-search' or 'desktop-commander'). Use empty string \"\" for root.")])]),
        ("required", .arr [.str "path"])] },
   { name := "lazy_mcp_execute_tool"
     description := "Execute a lazy-mcp tool by its full hierarchical path. First use lazy_mcp_get_tools_in_category to browse and find the tool path, then execute it with this tool."
     inputSchema := .obj
       [("type", .str "object"),
        ("properties", .obj
          [("tool_path", .obj
            [("type", .str "string"),
             ("description", .str "Full tool path using dot notation (e.g., 'brave-search.brave_web_search' or 'desktop-commander.read_file')")]),
           ("arguments", .obj
            [("type", .str "object"),
             ("additionalProperties", .boolVal true),
             ("description", .str "Arguments to pass to the tool")])]),
        ("required", .arr [.str "tool_path", .str "arguments"])] }]

/-- Source `getLazyMCPNavigationTools`: ensure the connection and, when it
is available, return the two fixed navigation descriptors; `[]` otherwise. -/
def getLazyMCPNavigationTools (env : Env) (connectOk : Bool) (st : BridgeState) :
    List ToolDescriptor × BridgeState :=
  match ensureLazyMCPConnection env connectOk st with
  | (false, st') => ([], st')
  | (true, st') => (navToolDescriptors, st')

/-- The skill part of the enhanced `ListToolsRequestSchema` handler's map
(the same generic `query` schema as the flattened variant). -/
def skillDescriptor (s : Skill) : ToolDescriptor :=
  { name := s.name, description := s.description, inputSchema := querySchema }

/-- The enhanced variant's two module-level cache states together. -/
structure ServerState where
  skills : SkillsCacheState
  bridge : BridgeState

/-- The body of one navigation branch of the enhanced call handler: call the
bridge primitive on the raw client (`oracle`; a null client is the caught
TypeError) and wrap a failure with the branch's fixed message head. -/
def navOutcome (client : Option Unit)
    (oracle : Option JsonVal → Except String String)
    (msgHead : String) (args : Option JsonVal) : CallOutcome :=
  match client with
  | none => .failure (msgHead ++ "TypeError")
  | some _ =>
    match oracle args with
    | .ok resp => .proxied resp
    | .error e => .failure (msgHead ++ e)

/-- Source enhanced `ListToolsRequestSchema` handler: skills first, then —
only when the live flag is true — the navigation descriptors (empty when the
bridge is unavailable). -/
def listToolsHandler (env : Env) (disk : Disk) (connectOk : Bool)
    (now : Nat) (st : ServerState) : List ToolDescriptor × ServerState :=
  let (skills, skSt) := loadSkills st.skills disk now
  let lazyMcpEnabled := getLazyMCPEnabled env
  let (lazyTools, brSt) :=
    if lazyMcpEnabled then getLazyMCPNavigationTools env connectOk st.bridge
    else ([], st.bridge)
  let allTools := skills.map skillDescriptor
  let allTools := if lazyMcpEnabled then allTools ++ lazyTools else allTools
  (allTools, { skills := skSt, bridge := brSt })

/-- Source enhanced `CallToolRequestSchema` handler: a found skill is
rendered (executable skills get the generated body, all others their raw
content); otherwise, only when the live flag is true, the two fixed
navigation names proxy to the bridge primitives (`navBrowse`, `navExec`,
called on the raw client — a null client is the caught TypeError);
everything else throws the not-found error.  `queryOf args` is
`request.params.arguments.query`. -/
def callToolHandler (env : Env) (disk : Disk)
    (navBrowse : Option JsonVal → Except String String)
    (navExec : Option JsonVal → Except String String)
    (now : Nat) (st : ServerState) (name : String)
    (args : Option JsonVal) (queryOf : Option JsonVal → Option String) :
    CallOutcome × ServerState :=
  let (skills, skSt) := loadSkills st.skills disk now
  match skills.find? (fun s => s.name == name) with
  | some skill =>
    if skill.type == "executable" then
      (.success (generateDynamicInstructions skill (queryOf args)),
       { skills := skSt, bridge := st.bridge })
    else
      (.success skill.content, { skills := skSt, bridge := st.bridge })
  | none =>
    if getLazyMCPEnabled env then
      if name == "lazy_mcp_get_tools_in_category" then
        (navOutcome st.bridge.client navBrowse "Failed to browse lazy-mcp categories: " args,
         { skills := skSt, bridge := st.bridge })
      else if name == "lazy_mcp_execute_tool" then
        (navOutcome st.bridge.client navExec "Failed to execute lazy-mcp tool: " args,
         { skills := skSt, bridge := st.bridge })
      else
        (.failure (notFoundMsg name), { skills := skSt, bridge := st.bridge })
    else
      (.failure (notFoundMsg name), { skills := skSt, bridge := st.bridge })

end Hier

/-! ## Specification-side definitions

These follow the spec's words, to be compared against the source-derived
functions above. -/

mutual

/-- Spec 4.4: the set of leaves reachable under a node, each with its full
dot-separated hierarchical path, in traversal order (leaves at the current
path first, then every child category's leaves). -/
def leafDefs (path : String) : Hierarchy → List (String × ToolDef)
  | .node tools children =>
    tools.map (fun p => (extendPath path p.1, p.2)) ++ leafDefsChildren path children

/-- Leaves of a list of child categories. -/
def leafDefsChildren (path : String) : List (String × Hierarchy) → List (String × ToolDef)
  | [] => []
  | (cn, ch) :: rest =>
    leafDefs (extendPath path cn) ch ++ leafDefsChildren path rest

end

/-- Spec 4.6: the executable-skill response body as the spec words it — the
concatenation of a header naming the skill, the description, an optional
task-context section from `arguments.query`, a tools-available section when
`allowedTools` is non-empty, the raw content as execution instructions, and
the four-way-switch closing section. -/
def dynamicInstructionsSpec (skill : Hier.Skill) (queryArg : Option String) : String :=
  "# " ++ skill.name ++ " - Dynamic Execution\n\n"
    ++ (skill.description ++ "\n\n")
    ++ (match queryArg with
        | some q => if q = "" then "" else "## Task Context\n" ++ q ++ "\n\n"
        | none => "")
    ++ (if skill.allowed_tools ≠ [] then
          "## Available Tools\nYou have access to these tools: "
            ++ joinWith ", " skill.allowed_tools ++ "\n\n" ++ Hier.toolStrategyBlock
        else "")
    ++ ("## Execution Instructions\n" ++ skill.content ++ "\n\n")
    ++ Hier.closingSection skill.execution_logic

/-- Dot-joining of path segments (JavaScript `segs.join(".")`), the inverse
view of the naming rule's "dot-separated segments". -/
def joinDots (segs : List String) : String :=
  joinWith "." segs

/-! ## Concrete fixtures used by witnesses and counterexamples -/

namespace Ex

/-- Environment with the bridge explicitly enabled. -/
def envOn : Env :=
  { lazyMcpEnabledVar := some "true", lazyMcpCommandExists := true
    cacheDurationVar := none, lazyMcpCacheDurationVar := none }

/-- Environment with the bridge explicitly disabled. -/
def envOff : Env :=
  { lazyMcpEnabledVar := some "false", lazyMcpCommandExists := true
    cacheDurationVar := none, lazyMcpCacheDurationVar := none }

/-- A well-formed static skill directory (the spec's `weather` example). -/
def weatherEntry : SkillDirEntry :=
  { dirName := "weather", hasSkillMd := true, readOk := true
    fmName := some "weather", fmDescription := some "reports weather"
    fmType := none, fmAllowedTools := none, fmExecutionLogic := none
    fmParameters := none, fmSkillId := none, fmVersion := none
    body := "Always answer in Celsius." }

/-- A second well-formed skill directory that reuses the name `weather` with
a different body. -/
def weatherCloneEntry : SkillDirEntry :=
  { dirName := "weather2", hasSkillMd := true, readOk := true
    fmName := some "weather", fmDescription := some "another weather skill"
    fmType := none, fmAllowedTools := none, fmExecutionLogic := none
    fmParameters := none, fmSkillId := none, fmVersion := none
    body := "Always answer in Fahrenheit." }

/-- An executable skill directory. -/
def deployEntry : SkillDirEntry :=
  { dirName := "deploy", hasSkillMd := true, readOk := true
    fmName := some "deploy", fmDescription := some "deploys things"
    fmType := some "executable", fmAllowedTools := some ["bash", "docker"]
    fmExecutionLogic := some "sequential", fmParameters := some [("target", "string")]
    fmSkillId := none, fmVersion := none
    body := "Run the deployment." }

/-- A one-skill disk. -/
def disk1 : Disk :=
  { skillsDir := "/home/u/.skills", rootExists := true, mkdirOk := true
    entries := [weatherEntry] }

/-- A disk with a duplicated skill name. -/
def diskDup : Disk :=
  { skillsDir := "/home/u/.skills", rootExists := true, mkdirOk := true
    entries := [weatherEntry, weatherCloneEntry] }

/-- A disk with one static and one executable skill. -/
def diskExec : Disk :=
  { skillsDir := "/home/u/.skills", rootExists := true, mkdirOk := true
    entries := [weatherEntry, deployEntry] }

/-- A bridge tool definition without an explicit schema. -/
def toolDefPlain : ToolDef := { description := some "searches the web", inputSchema := none }

/-- A two-level bridge hierarchy: a root leaf, and a category with a leaf
and a nested subcategory holding another leaf. -/
def hier1 : Hierarchy :=
  .node [("ping", toolDefPlain)]
    [("catA", .node [("leaf", toolDefPlain)]
      [("sub", .node [("deep", toolDefPlain)] [])])]

/-- An initial server state for the flattened variant: empty caches, no
client. -/
def st0 : Flat.ServerState :=
  { skills := { skillsCache := [], lastCacheTime := 0 }
    bridge := { client := none, toolsCache := [], lastCacheTime := 0 } }

/-- A flattened-variant state with an open bridge connection and a non-empty
bridge tool cache. -/
def stConnected : Flat.ServerState :=
  { skills := { skillsCache := [], lastCacheTime := 0 }
    bridge := { client := some ()
                toolsCache := [createTraditionalTool "catA.leaf" toolDefPlain]
                lastCacheTime := 0 } }

/-- A bridge executor that always succeeds with a fixed response. -/
def execOk : String → JsonVal → Except String String :=
  fun _ _ => .ok "bridge-result"

/-- Environment that disables the bridge and sets both documented TTL keys
to `0` (per the repository's README this should disable caching). -/
def envTtl0 : Env :=
  { lazyMcpEnabledVar := some "false", lazyMcpCommandExists := true
    cacheDurationVar := some "0", lazyMcpCacheDurationVar := some "0" }

/-- The parsed `weather` skill of the flattened variant. -/
def weatherSkill : Flat.Skill :=
  { name := "weather", description := "reports weather"
    content := "Always answer in Celsius."
    path := "/home/u/.skills/weather/SKILL.md" }

/-- The `weather` directory after its body was edited on disk. -/
def weatherChangedEntry : SkillDirEntry :=
  { weatherEntry with body := "Always answer in Kelvin." }

/-- The disk after the edit. -/
def diskChanged : Disk :=
  { skillsDir := "/home/u/.skills", rootExists := true, mkdirOk := true
    entries := [weatherChangedEntry] }

/-- The parsed `weather` skill after the edit. -/
def weatherChangedSkill : Flat.Skill :=
  { weatherSkill with content := "Always answer in Kelvin." }

/-- The parsed second skill declaring the duplicated name `weather`. -/
def weatherCloneSkill : Flat.Skill :=
  { name := "weather", description := "another weather skill"
    content := "Always answer in Fahrenheit."
    path := "/home/u/.skills/weather2/SKILL.md" }

/-- A flattened bridge tool used to pre-populate bridge caches. -/
def sampleLazyTool : LazyMCPTool :=
  createTraditionalTool "catA.leaf" toolDefPlain

/-- Environment with the bridge enabled and the documented bridge-TTL key
set to `0`. -/
def envOnTtl0 : Env :=
  { lazyMcpEnabledVar := some "true", lazyMcpCommandExists := true
    cacheDurationVar := some "0", lazyMcpCacheDurationVar := some "0" }

/-- The parsed `deploy` skill of the enhanced variant. -/
def deploySkill : Hier.Skill :=
  { name := "deploy", description := "deploys things"
    content := "Run the deployment."
    path := "/home/u/.skills/deploy/SKILL.md"
    type := "executable", allowed_tools := ["bash", "docker"]
    execution_logic := "sequential", parameters := [("target", "string")]
    skill_id := "deploy", version := "latest" }

/-- An initial server state for the enhanced variant. -/
def stH0 : Hier.ServerState :=
  { skills := { skillsCache := [], lastCacheTime := 0 }
    bridge := { client := none, toolsCache := [], lastCacheTime := 0 } }

end Ex

/-- The cache–client invariant of the flattened variant: a non-empty bridge
tool cache implies a live client reference. -/
def cacheClientInv (st : BridgeState) : Prop :=
  st.toolsCache ≠ [] → st.client ≠ none

/-- String concatenation is associative (registered so that bodies built by
incremental `+=` concatenation can be compared with the spec's section
grouping). -/
instance : Std.Associative (fun (a b : String) => a ++ b) :=
  ⟨String.append_assoc⟩

/-! # Theorems -/

/-! ## Splitting and joining lemmas -/

theorem splitAux_ne_nil (sep : Char) (cs : List Char) : splitAux sep cs ≠ [] := by
  cases cs with
  | nil => simp [splitAux]
  | cons c rest =>
    rw [splitAux]
    rcases hr : splitAux sep rest with _ | ⟨g, gs⟩ <;> simp
    split <;> simp

theorem splitAux_no_sep (sep : Char) (cs : List Char) (h : sep ∉ cs) :
    splitAux sep cs = [cs] := by
  induction cs with
  | nil => rfl
  | cons c rest ih =>
    rw [splitAux, ih (fun hm => h (List.mem_cons_of_mem _ hm))]
    have hc : ¬ c = sep := fun hh => h (hh ▸ List.mem_cons_self c rest)
    simp [hc]

theorem splitAux_append (sep : Char) (xs ys : List Char) (h : sep ∉ xs) :
    splitAux sep (xs ++ sep :: ys) = xs :: splitAux sep ys := by
  induction xs with
  | nil =>
    simp only [List.nil_append]
    rw [splitAux]
    rcases hr : splitAux sep ys with _ | ⟨g, gs⟩
    · exact absurd hr (splitAux_ne_nil sep ys)
    · simp [hr]
  | cons x rest ih =>
    have hx : ¬ x = sep := fun hh => h (hh ▸ List.mem_cons_self x rest)
    rw [List.cons_append, splitAux, ih (fun hm => h (List.mem_cons_of_mem _ hm))]
    simp [hx]

theorem jsSplit_joinDots (segs : List String) (hne : segs ≠ [])
    (hnd : ∀ s ∈ segs, '.' ∉ s.data) :
    jsSplit (joinDots segs) '.' = segs := by
  induction segs with
  | nil => exact absurd rfl hne
  | cons s rest ih =>
    cases rest with
    | nil =>
      rw [joinDots, joinWith, jsSplit, splitAux_no_sep '.' s.data (hnd s (by simp))]
      rfl
    | cons t rest2 =>
      have hj : joinDots (s :: t :: rest2) = s ++ "." ++ joinDots (t :: rest2) := rfl
      rw [hj]
      have hdata : (s ++ "." ++ joinDots (t :: rest2)).data
          = s.data ++ '.' :: (joinDots (t :: rest2)).data := by
        rw [String.data_append, String.data_append]
        simp [show ("." : String).data = ['.'] from rfl]
      rw [jsSplit, hdata, splitAux_append '.' _ _ (hnd s (by simp))]
      have ihr := ih (by simp) (fun x hx => hnd x (List.mem_cons_of_mem _ hx))
      rw [jsSplit] at ihr
      simp only [List.map_cons]
      rw [ihr]

/-! ## Hierarchy scan lemmas -/

mutual

theorem scan_eq_leafDefs (path : String) (h : Hierarchy) :
    Flat.scanLazyMCPHierarchy path h
      = (leafDefs path h).map (fun pd => createTraditionalTool pd.1 pd.2) := by
  match h with
  | .node tools children =>
    rw [Flat.scanLazyMCPHierarchy, leafDefs, List.map_append, List.map_map]
    exact congrArg₂ _ rfl (scanChildren_eq_leafDefs path children)

theorem scanChildren_eq_leafDefs (path : String) (l : List (String × Hierarchy)) :
    Flat.scanChildren path l
      = (leafDefsChildren path l).map (fun pd => createTraditionalTool pd.1 pd.2) := by
  match l with
  | [] => rfl
  | (cn, ch) :: rest =>
    rw [Flat.scanChildren, leafDefsChildren, List.map_append]
    exact congrArg₂ _ (scan_eq_leafDefs _ ch) (scanChildren_eq_leafDefs path rest)

end

/-! ## Claim C3 -/

/-- C3: the flattened variant's recursive hierarchy scan turns each leaf
tool at the current path into a BridgeTool via `createTraditionalTool` and
recurses into every child category with the parent-prefixed path, with no
pruning: the result is exactly the Bridge Tools of all leaves reachable
under the node, in traversal order, so that every leaf anywhere under the
root appears in the flattened result list. -/
theorem c3_scan_visits_all_leaves (path : String) (h : Hierarchy) :
    Flat.scanLazyMCPHierarchy path h
      = (leafDefs path h).map (fun pd => createTraditionalTool pd.1 pd.2)
    ∧ ∀ pd ∈ leafDefs path h,
        createTraditionalTool pd.1 pd.2 ∈ Flat.scanLazyMCPHierarchy path h := by
  refine ⟨scan_eq_leafDefs path h, ?_⟩
  intro pd hmem
  rw [scan_eq_leafDefs path h]
  exact List.mem_map_of_mem _ hmem

/-- C3 witness: in the concrete two-level hierarchy, the doubly nested leaf
`catA.sub.deep` is flattened into the scan's result. -/
theorem c3_witness :
    ("catA.sub.deep", Ex.toolDefPlain) ∈ leafDefs "" Ex.hier1
    ∧ createTraditionalTool "catA.sub.deep" Ex.toolDefPlain
        ∈ Flat.scanLazyMCPHierarchy "" Ex.hier1 := by
  have hmem : ("catA.sub.deep", Ex.toolDefPlain) ∈ leafDefs "" Ex.hier1 := by
    simp [leafDefs, leafDefsChildren, extendPath, Ex.hier1]
  exact ⟨hmem, (c3_scan_visits_all_leaves "" Ex.hier1).2 _ hmem⟩

/-! ## Claim C6 -/

/-- C6: for a hierarchical bridge path made of dot-free segments, the
externally visible flattened name is `category_leaf` (first segment,
underscore, last segment) when there are more than two segments, and the
leaf name unmodified when there are exactly two. -/
theorem c6_naming_rule (segs : List String) (d : ToolDef) (hne : segs ≠ [])
    (hnd : ∀ s ∈ segs, '.' ∉ s.data) :
    (segs.length > 2 →
      (createTraditionalTool (joinDots segs) d).name
        = segs.headD "" ++ "_" ++ segs.getLastD "")
    ∧ (segs.length = 2 →
      (createTraditionalTool (joinDots segs) d).name = segs.getLastD "") := by
  have hsplit := jsSplit_joinDots segs hne hnd
  constructor
  · intro hlen
    rw [createTraditionalTool]
    simp only [hsplit]
    simp [hlen]
  · intro hlen
    rw [createTraditionalTool]
    simp only [hsplit]
    simp [hlen]

/-- C6 witness: `catA.sub.leaf` (three segments) flattens to `catA_leaf`,
and `catA.leaf` (two segments) flattens to the unmodified leaf name. -/
theorem c6_witness :
    (createTraditionalTool "catA.sub.leaf" Ex.toolDefPlain).name = "catA_leaf"
    ∧ (createTraditionalTool "catA.leaf" Ex.toolDefPlain).name = "leaf" := by
  constructor
  · have h := (c6_naming_rule ["catA", "sub", "leaf"] Ex.toolDefPlain (by simp)
      (by decide)).1 (by simp)
    simpa using h
  · have h := (c6_naming_rule ["catA", "leaf"] Ex.toolDefPlain (by simp)
      (by decide)).2 (by simp)
    simpa using h

/-! ## Claim C1 -/

/-- C1: invoke resolution order, in both variants.  A name is resolved
first among the current skills (through the caching loader); only if no
skill matched and the live flag is true is it resolved among bridge entries
— the flattened names in the flattened variant, the two fixed navigation
names in the hierarchical variant — and proxied; if neither matched the
call fails with the not-found error naming the requested tool, and no other
fallback exists. -/
theorem c1_call_resolution_order (env : Env) (disk : Disk) (connectOk : Bool)
    (hier : Hierarchy) (bridgeExec : String → JsonVal → Except String String)
    (navBrowse navExec : Option JsonVal → Except String String)
    (now : Nat) (stF : Flat.ServerState) (stH : Hier.ServerState)
    (name : String) (args : Option JsonVal)
    (queryOf : Option JsonVal → Option String) :
    (∀ sk, (Flat.loadSkills stF.skills disk now).1.find? (fun s => s.name == name) = some sk →
      (Flat.callToolHandler env disk connectOk hier bridgeExec now stF name args).1
        = .success sk.content)
    ∧ ((Flat.loadSkills stF.skills disk now).1.find? (fun s => s.name == name) = none →
       getLazyMCPEnabled env = true →
       ∀ t, (Flat.loadLazyMCPTools env connectOk hier now stF.bridge).1.find?
              (fun t => t.name == name) = some t →
      (Flat.callToolHandler env disk connectOk hier bridgeExec now stF name args).1
        = Flat.proxyOutcome (Flat.loadLazyMCPTools env connectOk hier now stF.bridge).2.client
            bridgeExec name args t)
    ∧ ((Flat.loadSkills stF.skills disk now).1.find? (fun s => s.name == name) = none →
       (getLazyMCPEnabled env = false ∨
        (Flat.loadLazyMCPTools env connectOk hier now stF.bridge).1.find?
          (fun t => t.name == name) = none) →
      (Flat.callToolHandler env disk connectOk hier bridgeExec now stF name args).1
        = .failure (notFoundMsg name))
    ∧ (∀ sk, (Hier.loadSkills stH.skills disk now).1.find? (fun s => s.name == name) = some sk →
      (Hier.callToolHandler env disk navBrowse navExec now stH name args queryOf).1
        = .success (if sk.type == "executable"
                    then Hier.generateDynamicInstructions sk (queryOf args)
                    else sk.content))
    ∧ ((Hier.loadSkills stH.skills disk now).1.find? (fun s => s.name == name) = none →
       getLazyMCPEnabled env = true → name = "lazy_mcp_get_tools_in_category" →
      (Hier.callToolHandler env disk navBrowse navExec now stH name args queryOf).1
        = Hier.navOutcome stH.bridge.client navBrowse
            "Failed to browse lazy-mcp categories: " args)
    ∧ ((Hier.loadSkills stH.skills disk now).1.find? (fun s => s.name == name) = none →
       getLazyMCPEnabled env = true → name = "lazy_mcp_execute_tool" →
      (Hier.callToolHandler env disk navBrowse navExec now stH name args queryOf).1
        = Hier.navOutcome stH.bridge.client navExec
            "Failed to execute lazy-mcp tool: " args)
    ∧ ((Hier.loadSkills stH.skills disk now).1.find? (fun s => s.name == name) = none →
       (getLazyMCPEnabled env = false ∨
        (name ≠ "lazy_mcp_get_tools_in_category" ∧ name ≠ "lazy_mcp_execute_tool")) →
      (Hier.callToolHandler env disk navBrowse navExec now stH name args queryOf).1
        = .failure (notFoundMsg name)) := by
  rcases hLS : Flat.loadSkills stF.skills disk now with ⟨skills, skSt⟩
  rcases hLT : Flat.loadLazyMCPTools env connectOk hier now stF.bridge with ⟨lazyTools, brSt⟩
  rcases hHS : Hier.loadSkills stH.skills disk now with ⟨hskills, hskSt⟩
  refine ⟨?_, ?_, ?_, ?_, ?_, ?_, ?_⟩
  · intro sk hfind
    simp only at hfind
    simp [Flat.callToolHandler, hLS, hfind]
  · intro hnone henabled t hfind
    simp only at hnone hfind
    simp [Flat.callToolHandler, hLS, hnone, henabled, hLT, hfind]
  · intro hnone hrest
    simp only at hnone
    rcases hrest with henabled | hfind
    · simp [Flat.callToolHandler, hLS, hnone, henabled]
    · simp only at hfind
      simp only [Flat.callToolHandler, hLS, hnone, hLT, hfind]
      split <;> rfl
  · intro sk hfind
    simp only at hfind
    by_cases hex : sk.type == "executable"
    · simp [Hier.callToolHandler, hHS, hfind, hex]
    · simp only [Bool.not_eq_true] at hex
      simp [Hier.callToolHandler, hHS, hfind, hex]
  · intro hnone henabled hname
    subst hname
    simp only at hnone
    simp [Hier.callToolHandler, hHS, hnone, henabled]
  · intro hnone henabled hname
    subst hname
    simp only at hnone
    simp [Hier.callToolHandler, hHS, hnone, henabled]
  · intro hnone hrest
    simp only at hnone
    rcases hrest with henabled | ⟨hn1, hn2⟩
    · simp [Hier.callToolHandler, hHS, hnone, henabled]
    · have h1 : (name == "lazy_mcp_get_tools_in_category") = false := by
        simp [hn1]
      have h2 : (name == "lazy_mcp_execute_tool") = false := by
        simp [hn2]
      simp only [Hier.callToolHandler, hHS, hnone, h1, h2]
      split <;> rfl

/-- C1 witness: with the bridge disabled and a one-skill catalog, invoking
the unknown name `nope` fails with the not-found error naming it, in both
variants. -/
theorem c1_witness :
    (Flat.callToolHandler Ex.envOff Ex.disk1 false Ex.hier1 Ex.execOk 0 Ex.st0
        "nope" none).1 = .failure (notFoundMsg "nope")
    ∧ (Hier.callToolHandler Ex.envOff Ex.disk1 (fun _ => .ok "r") (fun _ => .ok "r") 0
        { skills := { skillsCache := [], lastCacheTime := 0 }
          bridge := { client := none, toolsCache := [], lastCacheTime := 0 } }
        "nope" none (fun _ => none)).1 = .failure (notFoundMsg "nope") := by
  constructor
  · exact (c1_call_resolution_order Ex.envOff Ex.disk1 false Ex.hier1 Ex.execOk
      (fun _ => .ok "r") (fun _ => .ok "r") 0 Ex.st0
      { skills := { skillsCache := [], lastCacheTime := 0 }
        bridge := { client := none, toolsCache := [], lastCacheTime := 0 } }
      "nope" none (fun _ => none)).2.2.1 rfl (Or.inl rfl)
  · exact (c1_call_resolution_order Ex.envOff Ex.disk1 false Ex.hier1 Ex.execOk
      (fun _ => .ok "r") (fun _ => .ok "r") 0 Ex.st0
      { skills := { skillsCache := [], lastCacheTime := 0 }
        bridge := { client := none, toolsCache := [], lastCacheTime := 0 } }
      "nope" none (fun _ => none)).2.2.2.2.2.2 rfl (Or.inl rfl)

/-! ## Catalog decomposition lemmas -/

theorem flat_listTools_fst (env : Env) (disk : Disk) (connectOk : Bool)
    (hier : Hierarchy) (now : Nat) (st : Flat.ServerState) :
    (Flat.listToolsHandler env disk connectOk hier now st).1
      = (Flat.loadSkills st.skills disk now).1.map Flat.skillDescriptor
        ++ (if getLazyMCPEnabled env = true then
              (Flat.loadLazyMCPTools env connectOk hier now st.bridge).1.map Flat.lazyDescriptor
            else []) := by
  rcases hLS : Flat.loadSkills st.skills disk now with ⟨skills, skSt⟩
  rcases hLT : Flat.loadLazyMCPTools env connectOk hier now st.bridge with ⟨lazyTools, brSt⟩
  by_cases he : getLazyMCPEnabled env = true
  · simp [Flat.listToolsHandler, hLS, hLT, he]
  · simp only [Bool.not_eq_true] at he
    simp [Flat.listToolsHandler, hLS, he]

theorem hier_listTools_fst (env : Env) (disk : Disk) (connectOk : Bool)
    (now : Nat) (st : Hier.ServerState) :
    (Hier.listToolsHandler env disk connectOk now st).1
      = (Hier.loadSkills st.skills disk now).1.map Hier.skillDescriptor
        ++ (if getLazyMCPEnabled env = true then
              (Hier.getLazyMCPNavigationTools env connectOk st.bridge).1
            else []) := by
  rcases hHS : Hier.loadSkills st.skills disk now with ⟨hskills, hskSt⟩
  rcases hNav : Hier.getLazyMCPNavigationTools env connectOk st.bridge with ⟨navTools, hbrSt⟩
  by_cases he : getLazyMCPEnabled env = true
  · simp [Hier.listToolsHandler, hHS, hNav, he]
  · simp only [Bool.not_eq_true] at he
    simp [Hier.listToolsHandler, hHS, he]

theorem find?_first {α} (p : α → Bool) (pre post : List α) (x : α)
    (hpre : ∀ a ∈ pre, p a = false) (hx : p x = true) :
    List.find? p (pre ++ x :: post) = some x := by
  induction pre with
  | nil => simp [List.find?, hx]
  | cons a rest ih =>
    have ha : p a = false := hpre a (List.mem_cons_self a rest)
    simp only [List.cons_append, List.find?, ha]
    exact ih (fun b hb => hpre b (List.mem_cons_of_mem _ hb))

/-! ## Claim C4 -/

/-- C4: every catalog listing returns all current skills first and, only
when the live flag is true, the bridge entries appended after all skills
(the flattened tools in the flattened variant, the navigation descriptors
in the hierarchical one); each skill's catalog entry consists of exactly
its name, its description and the generic optional-string `query` schema —
it is independent of the skill's `content` and (in the enhanced variant)
`parameters`, which therefore never appear in a listing. -/
theorem c4_catalog_shape (env : Env) (disk : Disk) (connectOk : Bool)
    (hier : Hierarchy) (now : Nat) (stF : Flat.ServerState) (stH : Hier.ServerState) :
    (Flat.listToolsHandler env disk connectOk hier now stF).1
      = (Flat.loadSkills stF.skills disk now).1.map Flat.skillDescriptor
        ++ (if getLazyMCPEnabled env = true then
              (Flat.loadLazyMCPTools env connectOk hier now stF.bridge).1.map Flat.lazyDescriptor
            else [])
    ∧ (∀ s : Flat.Skill, Flat.skillDescriptor s
        = { name := s.name, description := s.description, inputSchema := querySchema })
    ∧ (∀ s₁ s₂ : Flat.Skill, s₁.name = s₂.name → s₁.description = s₂.description →
        Flat.skillDescriptor s₁ = Flat.skillDescriptor s₂)
    ∧ (Hier.listToolsHandler env disk connectOk now stH).1
      = (Hier.loadSkills stH.skills disk now).1.map Hier.skillDescriptor
        ++ (if getLazyMCPEnabled env = true then
              (Hier.getLazyMCPNavigationTools env connectOk stH.bridge).1
            else [])
    ∧ (∀ s : Hier.Skill, Hier.skillDescriptor s
        = { name := s.name, description := s.description, inputSchema := querySchema })
    ∧ (∀ s₁ s₂ : Hier.Skill, s₁.name = s₂.name → s₁.description = s₂.description →
        Hier.skillDescriptor s₁ = Hier.skillDescriptor s₂) := by
  refine ⟨flat_listTools_fst env disk connectOk hier now stF, fun s => rfl, ?_,
    hier_listTools_fst env disk connectOk now stH, fun s => rfl, ?_⟩
  · intro s₁ s₂ hn hd
    simp [Flat.skillDescriptor, hn, hd]
  · intro s₁ s₂ hn hd
    simp [Hier.skillDescriptor, hn, hd]

/-- C4 witness: with the bridge disabled, the one-skill catalog lists
exactly the skill's name, description and the generic `query` schema, with
no bridge entries; and two skills differing only in content get the same
descriptor. -/
theorem c4_witness :
    (Flat.listToolsHandler Ex.envOff Ex.disk1 false Ex.hier1 0 Ex.st0).1
      = [{ name := "weather", description := "reports weather", inputSchema := querySchema }]
    ∧ Flat.skillDescriptor Ex.weatherSkill = Flat.skillDescriptor Ex.weatherChangedSkill := by
  constructor
  · have h := (c4_catalog_shape Ex.envOff Ex.disk1 false Ex.hier1 0 Ex.st0 Ex.stH0).1
    rw [h]
    rfl
  · exact (c4_catalog_shape Ex.envOff Ex.disk1 false Ex.hier1 0 Ex.st0 Ex.stH0).2.2.1
      Ex.weatherSkill Ex.weatherChangedSkill rfl rfl

/-! ## Claim C2 -/

/-- C2 counterexample: with the flag false, a catalog-listing request on a
state with an open bridge connection and a non-empty bridge tool cache
leaves both in place — the request served while the flag is false does not
tear the connection down and does not clear the cache (the teardown lives
only in `ensureLazyMCPConnection`, which such a request never calls). -/
theorem c2_counterexample :
    getLazyMCPEnabled Ex.envOff = false
    ∧ (Flat.listToolsHandler Ex.envOff Ex.disk1 false Ex.hier1 0
        Ex.stConnected).2.bridge.client = some ()
    ∧ (Flat.listToolsHandler Ex.envOff Ex.disk1 false Ex.hier1 0
        Ex.stConnected).2.bridge.toolsCache ≠ [] := by
  refine ⟨rfl, rfl, ?_⟩
  intro h
  simp [Flat.listToolsHandler, Flat.loadSkills, Ex.stConnected,
    getLazyMCPEnabled, isLazyMCPEnabled, Ex.envOff] at h

/-- C2 as amended: only `ensureLazyMCPConnection` performs the teardown —
whenever it observes the live flag false it closes and nulls the client,
clears the Bridge Tool Cache and reports the bridge unavailable; the
listing and invoke handlers observing the flag false skip the bridge path
entirely, leaving the bridge connection and cache untouched, while no
bridge entry is listed and no bridge call is proxied. -/
theorem c2_amended_teardown_only_in_ensure (env : Env) (connectOk : Bool)
    (disk : Disk) (hier : Hierarchy)
    (bridgeExec : String → JsonVal → Except String String) (now : Nat)
    (stB : BridgeState) (stF : Flat.ServerState) (name : String)
    (args : Option JsonVal) (hoff : getLazyMCPEnabled env = false) :
    ensureLazyMCPConnection env connectOk stB
      = (false, { stB with client := none, toolsCache := [] })
    ∧ (Flat.listToolsHandler env disk connectOk hier now stF).2.bridge = stF.bridge
    ∧ (Flat.listToolsHandler env disk connectOk hier now stF).1
        = (Flat.loadSkills stF.skills disk now).1.map Flat.skillDescriptor
    ∧ (Flat.callToolHandler env disk connectOk hier bridgeExec now stF name args).2.bridge
        = stF.bridge := by
  refine ⟨?_, ?_, ?_, ?_⟩
  · simp [ensureLazyMCPConnection, hoff]
  · rcases hLS : Flat.loadSkills stF.skills disk now with ⟨skills, skSt⟩
    simp [Flat.listToolsHandler, hLS, hoff]
  · rcases hLS : Flat.loadSkills stF.skills disk now with ⟨skills, skSt⟩
    simp [Flat.listToolsHandler, hLS, hoff]
  · rcases hLS : Flat.loadSkills stF.skills disk now with ⟨skills, skSt⟩
    rcases hfind : skills.find? (fun s => s.name == name) with _ | sk
      <;> simp [Flat.callToolHandler, hLS, hfind, hoff]

/-- C2 amended witness: on the connected state with the flag false, the
teardown happens inside `ensureLazyMCPConnection` while a listing request
leaves the bridge state untouched. -/
theorem c2_amended_witness :
    ensureLazyMCPConnection Ex.envOff false Ex.stConnected.bridge
      = (false, { Ex.stConnected.bridge with client := none, toolsCache := [] })
    ∧ (Flat.listToolsHandler Ex.envOff Ex.disk1 false Ex.hier1 0 Ex.stConnected).2.bridge
      = Ex.stConnected.bridge := by
  have h := c2_amended_teardown_only_in_ensure Ex.envOff false Ex.disk1 Ex.hier1
    Ex.execOk 0 Ex.stConnected.bridge Ex.stConnected "nope" none rfl
  exact ⟨h.1, h.2.1⟩

/-! ## Claim C5 -/

/-- C5: invoking a known static skill returns exactly its raw content
verbatim; invoking a known executable skill returns the synthesized body,
which equals the spec-side concatenation of a header naming the skill, the
description, a task-context section containing `arguments.query` verbatim
when supplied (and non-empty, per the source's falsiness test), an
available-tools section when `allowed_tools` is non-empty, the raw content
as execution instructions, and a closing section selected by the four-way
switch on `execution_logic` with every unknown value falling through to the
standard block. -/
theorem c5_skill_invocation (env : Env) (disk : Disk)
    (navBrowse navExec : Option JsonVal → Except String String) (now : Nat)
    (st : Hier.ServerState) (name : String) (args : Option JsonVal)
    (queryOf : Option JsonVal → Option String) :
    (∀ sk, (Hier.loadSkills st.skills disk now).1.find? (fun s => s.name == name) = some sk →
      sk.type ≠ "executable" →
      (Hier.callToolHandler env disk navBrowse navExec now st name args queryOf).1
        = .success sk.content)
    ∧ (∀ sk, (Hier.loadSkills st.skills disk now).1.find? (fun s => s.name == name) = some sk →
      sk.type = "executable" →
      (Hier.callToolHandler env disk navBrowse navExec now st name args queryOf).1
        = .success (Hier.generateDynamicInstructions sk (queryOf args)))
    ∧ (∀ (sk : Hier.Skill) (qa : Option String),
        Hier.generateDynamicInstructions sk qa = dynamicInstructionsSpec sk qa)
    ∧ (∀ logic : String, logic ≠ "conditional" → logic ≠ "sequential" →
        logic ≠ "parallel" →
        Hier.closingSection logic = Hier.closingSection "standard") := by
  rcases hHS : Hier.loadSkills st.skills disk now with ⟨hskills, hskSt⟩
  refine ⟨?_, ?_, ?_, ?_⟩
  · intro sk hfind hstatic
    simp only at hfind
    have hex : (sk.type == "executable") = false := by
      simp [hstatic]
    simp [Hier.callToolHandler, hHS, hfind, hex]
  · intro sk hfind hexec
    simp only at hfind
    have hex : (sk.type == "executable") = true := by
      simp [hexec]
    simp [Hier.callToolHandler, hHS, hfind, hex]
  · intro sk qa
    unfold Hier.generateDynamicInstructions dynamicInstructionsSpec
    have hsplit1 : ("\n\n## Execution Instructions\n" : String)
        = "\n\n" ++ "## Execution Instructions\n" := rfl
    have hsplit2 : ("\n\n## Available Tools\nYou have access to these tools: " : String)
        = "\n\n" ++ "## Available Tools\nYou have access to these tools: " := rfl
    have hsplit3 : ("\n\n## Task Context\n" : String)
        = "\n\n" ++ "## Task Context\n" := rfl
    cases qa with
    | none =>
      simp only
      by_cases ht : sk.allowed_tools = []
      · simp [ht, String.append_assoc]
        simp only [hsplit1, hsplit2, hsplit3]
        ac_rfl
      · have hlen : 0 < sk.allowed_tools.length := List.length_pos.mpr ht
        simp [ht, hlen, String.append_assoc]
        simp only [hsplit1, hsplit2, hsplit3]
        ac_rfl
    | some q =>
      simp only
      by_cases hq : q = ""
      · subst hq
        by_cases ht : sk.allowed_tools = []
        · simp [ht, String.append_assoc]
          simp only [hsplit1, hsplit2, hsplit3]
          ac_rfl
        · have hlen : 0 < sk.allowed_tools.length := List.length_pos.mpr ht
          simp [ht, hlen, String.append_assoc]
          simp only [hsplit1, hsplit2, hsplit3]
          ac_rfl
      · by_cases ht : sk.allowed_tools = []
        · simp [hq, ht, String.append_assoc]
          simp only [hsplit1, hsplit2, hsplit3]
          ac_rfl
        · have hlen : 0 < sk.allowed_tools.length := List.length_pos.mpr ht
          simp [hq, ht, hlen, String.append_assoc]
          simp only [hsplit1, hsplit2, hsplit3]
          ac_rfl
  · intro logic h1 h2 h3
    unfold Hier.closingSection
    split
    · exact absurd rfl h1
    · exact absurd rfl h2
    · exact absurd rfl h3
    · rfl

/-- C5 witness: invoking the static `weather` skill returns its raw body
verbatim, and invoking the executable `deploy` skill with a query returns
the generated body, equal to the spec-side concatenation. -/
theorem c5_witness :
    (Hier.callToolHandler Ex.envOff Ex.diskExec (fun _ => .ok "r") (fun _ => .ok "r") 0
        Ex.stH0 "weather" none (fun _ => none)).1
      = .success "Always answer in Celsius."
    ∧ (Hier.callToolHandler Ex.envOff Ex.diskExec (fun _ => .ok "r") (fun _ => .ok "r") 0
        Ex.stH0 "deploy" none (fun _ => some "ship it")).1
      = .success (Hier.generateDynamicInstructions Ex.deploySkill (some "ship it"))
    ∧ Hier.generateDynamicInstructions Ex.deploySkill (some "ship it")
      = dynamicInstructionsSpec Ex.deploySkill (some "ship it") := by
  refine ⟨?_, ?_, ?_⟩
  · have h := (c5_skill_invocation Ex.envOff Ex.diskExec (fun _ => .ok "r")
      (fun _ => .ok "r") 0 Ex.stH0 "weather" none (fun _ => none)).1
    exact h { name := "weather", description := "reports weather"
              content := "Always answer in Celsius."
              path := "/home/u/.skills/weather/SKILL.md"
              type := "static", allowed_tools := [], execution_logic := "static"
              parameters := [], skill_id := "weather", version := "latest" }
      rfl (by decide)
  · have h := (c5_skill_invocation Ex.envOff Ex.diskExec (fun _ => .ok "r")
      (fun _ => .ok "r") 0 Ex.stH0 "deploy" none (fun _ => some "ship it")).2.1
    exact h Ex.deploySkill rfl rfl
  · exact (c5_skill_invocation Ex.envOff Ex.diskExec (fun _ => .ok "r")
      (fun _ => .ok "r") 0 Ex.stH0 "deploy" none (fun _ => some "ship it")).2.2.1
      Ex.deploySkill (some "ship it")

/-! ## Claim C7 -/

/-- C7 counterexample: two skill directories declaring the same name
`weather` both enter the snapshot — it contains two entries for that name,
not exactly one, and the catalog listing shows the duplicated name twice. -/
theorem c7_counterexample :
    ((Flat.loadSkills { skillsCache := [], lastCacheTime := 0 } Ex.diskDup 0).1.filter
        (fun s => s.name == "weather")).length = 2
    ∧ (Flat.listToolsHandler Ex.envOff Ex.diskDup false Ex.hier1 0 Ex.st0).1.map
        ToolDescriptor.name = ["weather", "weather"] := by
  exact ⟨rfl, rfl⟩

/-- C7 as amended: duplicate skill names are neither deduplicated nor
rejected — the snapshot keeps one entry per valid descriptor in directory
order, the catalog lists one descriptor per snapshot entry (duplicates
included), and invoke resolution consistently returns the first-read
definition: when the snapshot splits as `pre ++ sk :: post` with no
earlier entry named `name` and `sk.name = name`, invoking `name` returns
`sk`'s content. -/
theorem c7_amended_duplicates_kept_first_wins (env : Env) (disk : Disk)
    (connectOk : Bool) (hier : Hierarchy)
    (bridgeExec : String → JsonVal → Except String String) (now : Nat)
    (st : Flat.ServerState) (name : String) (args : Option JsonVal) :
    (Flat.listToolsHandler env disk connectOk hier now st).1.map ToolDescriptor.name
      = (Flat.loadSkills st.skills disk now).1.map Flat.Skill.name
        ++ (if getLazyMCPEnabled env = true then
              (Flat.loadLazyMCPTools env connectOk hier now st.bridge).1.map LazyMCPTool.name
            else [])
    ∧ (∀ pre sk post, (Flat.loadSkills st.skills disk now).1 = pre ++ sk :: post →
        (∀ s ∈ pre, s.name ≠ name) → sk.name = name →
        (Flat.callToolHandler env disk connectOk hier bridgeExec now st name args).1
          = .success sk.content) := by
  have hmap1 : ∀ l : List Flat.Skill,
      (l.map Flat.skillDescriptor).map ToolDescriptor.name = l.map Flat.Skill.name := by
    intro l
    induction l with
    | nil => rfl
    | cons a t ih => simp [ih, Flat.skillDescriptor]
  have hmap2 : ∀ l : List LazyMCPTool,
      (l.map Flat.lazyDescriptor).map ToolDescriptor.name = l.map LazyMCPTool.name := by
    intro l
    induction l with
    | nil => rfl
    | cons a t ih => simp [ih, Flat.lazyDescriptor]
  constructor
  · rw [flat_listTools_fst env disk connectOk hier now st]
    by_cases he : getLazyMCPEnabled env = true
    · rw [he, if_pos rfl, if_pos rfl, List.map_append, hmap1, hmap2]
    · simp only [Bool.not_eq_true] at he
      simp [he, hmap1]
  · intro pre sk post hsplit hpre hsk
    rcases hLS : Flat.loadSkills st.skills disk now with ⟨skills, skSt⟩
    rw [hLS] at hsplit
    simp only at hsplit
    have hfind : skills.find? (fun s => s.name == name) = some sk := by
      rw [hsplit]
      exact find?_first _ pre post sk
        (fun s hs => by simp [hpre s hs]) (by simp [hsk])
    simp [Flat.callToolHandler, hLS, hfind]

/-- C7 amended witness: on the duplicated-name disk the listing shows the
name twice, and invoking `weather` returns the first-read definition's
content. -/
theorem c7_amended_witness :
    (Flat.listToolsHandler Ex.envOff Ex.diskDup false Ex.hier1 0 Ex.st0).1.map
        ToolDescriptor.name
      = ["weather", "weather"]
    ∧ (Flat.callToolHandler Ex.envOff Ex.diskDup false Ex.hier1 Ex.execOk 0 Ex.st0
        "weather" none).1 = .success "Always answer in Celsius." := by
  have h := c7_amended_duplicates_kept_first_wins Ex.envOff Ex.diskDup false Ex.hier1
    Ex.execOk 0 Ex.st0 "weather" none
  constructor
  · rw [h.1]
    rfl
  · exact h.2 [] Ex.weatherSkill [Ex.weatherCloneSkill] rfl
      (fun s hs => absurd hs (List.not_mem_nil s)) rfl

/-! ## Claim C8 -/

/-- C8: the repository's documentation presents `CACHE_DURATION` and the
bridge cache TTL as environment-configurable, but both are hard-coded
constants the environment never reaches: with `CACHE_DURATION=0` in the
environment (documented as disabling caching) and a changed descriptor on
disk, a reload 1 ms — even 4999 ms — after the last load still serves the
stale cache, and only from 5000 ms on is the change picked up; likewise the
bridge cache is served until 300000 ms regardless of the environment. -/
theorem c8_ttl_env_keys_ignored :
    Ex.envTtl0.cacheDurationVar = some "0"
    ∧ CACHE_DURATION = 5000
    ∧ LAZY_MCP_CACHE_DURATION = 300000
    ∧ (Flat.loadSkills { skillsCache := [Ex.weatherSkill], lastCacheTime := 0 }
        Ex.diskChanged 1).1 = [Ex.weatherSkill]
    ∧ (Flat.loadSkills { skillsCache := [Ex.weatherSkill], lastCacheTime := 0 }
        Ex.diskChanged 4999).1 = [Ex.weatherSkill]
    ∧ (Flat.loadSkills { skillsCache := [Ex.weatherSkill], lastCacheTime := 0 }
        Ex.diskChanged 5000).1 = [Ex.weatherChangedSkill]
    ∧ Ex.envOnTtl0.lazyMcpCacheDurationVar = some "0"
    ∧ (Flat.loadLazyMCPTools Ex.envOnTtl0 true Ex.hier1 299999
        { client := some (), toolsCache := [Ex.sampleLazyTool], lastCacheTime := 0 }).1
      = [Ex.sampleLazyTool] := by
  refine ⟨rfl, rfl, rfl, ?_, ?_, ?_, rfl, ?_⟩
  · rfl
  · rfl
  · rfl
  · rfl

/-! ## Connection-manager invariant lemmas -/

theorem ensure_preserves_inv (env : Env) (connectOk : Bool) (st : BridgeState)
    (b : Bool) (st' : BridgeState)
    (heq : ensureLazyMCPConnection env connectOk st = (b, st'))
    (hInv : cacheClientInv st) :
    cacheClientInv st' ∧ (b = true → st'.client ≠ none) := by
  unfold ensureLazyMCPConnection at heq
  split at heq
  · rcases heq with ⟨⟩
    exact ⟨fun h => absurd rfl h, fun hb => by cases hb⟩
  · split at heq
    · split at heq
      · rcases heq with ⟨⟩
        exact ⟨fun _ => by simp, fun _ => by simp⟩
      · rcases heq with ⟨⟩
        refine ⟨fun hc => absurd (hInv hc) ?_, fun hb => by cases hb⟩
        simp_all
    · rcases heq with ⟨⟩
      exact ⟨hInv, fun _ => by simp_all⟩

theorem loadLazy_preserves_inv (env : Env) (connectOk : Bool) (hier : Hierarchy)
    (now : Nat) (st : BridgeState) (l : List LazyMCPTool) (st' : BridgeState)
    (heq : Flat.loadLazyMCPTools env connectOk hier now st = (l, st'))
    (hInv : cacheClientInv st) :
    cacheClientInv st' ∧ (l ≠ [] → st'.client ≠ none) := by
  unfold Flat.loadLazyMCPTools at heq
  split at heq
  · rcases heq with ⟨⟩
    exact ⟨hInv, fun hl => hInv hl⟩
  · split at heq
    next hE =>
      rcases heq with ⟨⟩
      have h := ensure_preserves_inv env connectOk st _ _ hE hInv
      exact ⟨h.1, fun hl => absurd rfl hl⟩
    next hE =>
      rcases heq with ⟨⟩
      have h := ensure_preserves_inv env connectOk st _ _ hE hInv
      have hc : (ensureLazyMCPConnection env connectOk st).2.client ≠ none := by
        rw [hE]
        exact h.2 rfl
      rw [hE] at hc
      exact ⟨fun _ => hc, fun _ => hc⟩

/-! ## Claim C9 -/

/-- C9: in the flattened variant, a non-empty bridge-tools cache always
comes with a live client: the invariant is preserved by the connection
manager, the bridge-tools loader and both request handlers, the loader
returns a non-empty list only with a live client, and in the invoke
handler's proxy path a matched bridge tool guarantees the client consulted
is not null. -/
theorem c9_cache_nonempty_implies_client (env : Env) (connectOk : Bool)
    (disk : Disk) (hier : Hierarchy)
    (bridgeExec : String → JsonVal → Except String String) (now : Nat)
    (stB : BridgeState) (stF : Flat.ServerState) (name : String)
    (args : Option JsonVal) :
    (cacheClientInv stB → cacheClientInv (ensureLazyMCPConnection env connectOk stB).2)
    ∧ (cacheClientInv stB →
        cacheClientInv (Flat.loadLazyMCPTools env connectOk hier now stB).2)
    ∧ (cacheClientInv stB → (Flat.loadLazyMCPTools env connectOk hier now stB).1 ≠ [] →
        (Flat.loadLazyMCPTools env connectOk hier now stB).2.client ≠ none)
    ∧ (cacheClientInv stF.bridge →
        cacheClientInv (Flat.listToolsHandler env disk connectOk hier now stF).2.bridge)
    ∧ (cacheClientInv stF.bridge →
        cacheClientInv
          (Flat.callToolHandler env disk connectOk hier bridgeExec now stF name args).2.bridge)
    ∧ (cacheClientInv stF.bridge → ∀ t,
        (Flat.loadLazyMCPTools env connectOk hier now stF.bridge).1.find?
          (fun t => t.name == name) = some t →
        (Flat.loadLazyMCPTools env connectOk hier now stF.bridge).2.client ≠ none) := by
  refine ⟨?_, ?_, ?_, ?_, ?_, ?_⟩
  · intro hInv
    rcases hE : ensureLazyMCPConnection env connectOk stB with ⟨b, stE⟩
    exact (ensure_preserves_inv env connectOk stB b stE hE hInv).1
  · intro hInv
    rcases hL : Flat.loadLazyMCPTools env connectOk hier now stB with ⟨l, stL⟩
    exact (loadLazy_preserves_inv env connectOk hier now stB l stL hL hInv).1
  · intro hInv hl
    rcases hL : Flat.loadLazyMCPTools env connectOk hier now stB with ⟨l, stL⟩
    rw [hL] at hl
    exact (loadLazy_preserves_inv env connectOk hier now stB l stL hL hInv).2 hl
  · intro hInv
    rcases hLS : Flat.loadSkills stF.skills disk now with ⟨skills, skSt⟩
    rcases hL : Flat.loadLazyMCPTools env connectOk hier now stF.bridge with ⟨l, stL⟩
    by_cases he : getLazyMCPEnabled env = true
    · simpa [Flat.listToolsHandler, hLS, hL, he] using
        (loadLazy_preserves_inv env connectOk hier now stF.bridge l stL hL hInv).1
    · simp only [Bool.not_eq_true] at he
      simpa [Flat.listToolsHandler, hLS, he] using hInv
  · intro hInv
    rcases hLS : Flat.loadSkills stF.skills disk now with ⟨skills, skSt⟩
    rcases hL : Flat.loadLazyMCPTools env connectOk hier now stF.bridge with ⟨l, stL⟩
    have hLInv := (loadLazy_preserves_inv env connectOk hier now stF.bridge l stL hL hInv).1
    rcases hfind : skills.find? (fun s => s.name == name) with _ | sk
    · by_cases he : getLazyMCPEnabled env = true
      · rcases hfind2 : l.find? (fun t => t.name == name) with _ | t
          <;> simpa [Flat.callToolHandler, hLS, hfind, he, hL, hfind2] using hLInv
      · simp only [Bool.not_eq_true] at he
        simpa [Flat.callToolHandler, hLS, hfind, he] using hInv
    · simpa [Flat.callToolHandler, hLS, hfind] using hInv
  · intro hInv t hfind
    rcases hL : Flat.loadLazyMCPTools env connectOk hier now stF.bridge with ⟨l, stL⟩
    rw [hL] at hfind
    simp only at hfind
    have hl : l ≠ [] := by
      intro hnil
      rw [hnil] at hfind
      cases hfind
    exact (loadLazy_preserves_inv env connectOk hier now stF.bridge l stL hL hInv).2 hl

/-- C9 witness: starting from the empty initial state (where the invariant
holds), a listing with the bridge enabled and a connectable provider leaves
a state whose cache is the scanned tool set and whose client is live. -/
theorem c9_witness :
    cacheClientInv Ex.st0.bridge
    ∧ cacheClientInv
        (Flat.listToolsHandler Ex.envOn Ex.disk1 true Ex.hier1 0 Ex.st0).2.bridge
    ∧ (Flat.loadLazyMCPTools Ex.envOn true Ex.hier1 0 Ex.st0.bridge).2.client ≠ none := by
  have hInv : cacheClientInv Ex.st0.bridge := by
    intro h
    exact absurd rfl h
  refine ⟨hInv, ?_, ?_⟩
  · exact (c9_cache_nonempty_implies_client Ex.envOn true Ex.disk1 Ex.hier1 Ex.execOk 0
      Ex.st0.bridge Ex.st0 "x" none).2.2.2.1 hInv
  · exact (c9_cache_nonempty_implies_client Ex.envOn true Ex.disk1 Ex.hier1 Ex.execOk 0
      Ex.st0.bridge Ex.st0 "x" none).2.2.1 hInv (by simp [Flat.loadLazyMCPTools,
        ensureLazyMCPConnection, Flat.scanLazyMCPHierarchy, Flat.scanChildren,
        getLazyMCPEnabled, isLazyMCPEnabled, Ex.envOn, Ex.st0, Ex.hier1])

/-! ## Claim C10 -/

/-- C10: an empty load result is never cached as fresh, because both
freshness checks require a non-empty cached list.  With an empty skills
cache, `loadSkills` re-scans the disk whatever `now` and the elapsed time
are (so every listing or invoke request does a full disk scan), and with an
empty bridge-tools cache `loadLazyMCPTools` re-runs the connection attempt
and — when the connection is available — the full hierarchy scan, whatever
the elapsed time is. -/
theorem c10_empty_cache_never_fresh (env : Env) (connectOk : Bool) (disk : Disk)
    (hier : Hierarchy) (now : Nat) (stSk : Flat.SkillsCacheState) (stB : BridgeState) :
    (stSk.skillsCache = [] → disk.rootExists = true →
      Flat.loadSkills stSk disk now
        = (Flat.scanSkills disk,
           { skillsCache := Flat.scanSkills disk, lastCacheTime := now }))
    ∧ (stB.toolsCache = [] → (ensureLazyMCPConnection env connectOk stB).1 = false →
        Flat.loadLazyMCPTools env connectOk hier now stB
          = ([], (ensureLazyMCPConnection env connectOk stB).2))
    ∧ (stB.toolsCache = [] → (ensureLazyMCPConnection env connectOk stB).1 = true →
        Flat.loadLazyMCPTools env connectOk hier now stB
          = (Flat.scanLazyMCPHierarchy "" hier,
             { (ensureLazyMCPConnection env connectOk stB).2 with
                 toolsCache := Flat.scanLazyMCPHierarchy "" hier
                 lastCacheTime := now })) := by
  refine ⟨?_, ?_, ?_⟩
  · intro hempty hroot
    rw [Flat.loadSkills]
    rw [if_neg (by simp [hempty]), if_neg (by simp [hroot])]
  · intro hempty hfalse
    rcases hE : ensureLazyMCPConnection env connectOk stB with ⟨b, stE⟩
    rw [hE] at hfalse
    simp only at hfalse
    subst hfalse
    rw [Flat.loadLazyMCPTools, if_neg (by simp [hempty]), hE]
  · intro hempty htrue
    rcases hE : ensureLazyMCPConnection env connectOk stB with ⟨b, stE⟩
    rw [hE] at htrue
    simp only at htrue
    subst htrue
    rw [Flat.loadLazyMCPTools, if_neg (by simp [hempty]), hE]

/-- C10 witness: 1 ms after a load that produced zero skills (well inside
both TTLs), a skills load re-scans the disk and picks up the new skill, and
a bridge-tools load connects and scans the whole hierarchy. -/
theorem c10_witness :
    Flat.loadSkills { skillsCache := [], lastCacheTime := 0 } Ex.disk1 1
      = ([Ex.weatherSkill], { skillsCache := [Ex.weatherSkill], lastCacheTime := 1 })
    ∧ Flat.loadLazyMCPTools Ex.envOn true Ex.hier1 1
        { client := none, toolsCache := [], lastCacheTime := 0 }
      = (Flat.scanLazyMCPHierarchy "" Ex.hier1,
         { client := some (), toolsCache := Flat.scanLazyMCPHierarchy "" Ex.hier1
           lastCacheTime := 1 }) := by
  constructor
  · have h := (c10_empty_cache_never_fresh Ex.envOn true Ex.disk1 Ex.hier1 1
      { skillsCache := [], lastCacheTime := 0 }
      { client := none, toolsCache := [], lastCacheTime := 0 }).1 rfl rfl
    rw [h]
    rfl
  · have h := (c10_empty_cache_never_fresh Ex.envOn true Ex.disk1 Ex.hier1 1
      { skillsCache := [], lastCacheTime := 0 }
      { client := none, toolsCache := [], lastCacheTime := 0 }).2.2 rfl rfl
    rw [h]
    rfl

end SkillsServer
